import Mathlib

/-!
Verification of the cache-invalidation engine (`cacheops/invalidation.py`).

The Redis store is modelled as an association list from keys to values,
where a value is an integer (version counters), a set of strings
(scheme sets and conj-sets), or an opaque blob (cached results).
Entity types are identified by their name string (`get_model_name` is
external to the module and resolves a model to its name).
-/

set_option maxHeartbeats 1000000

namespace Cacheops

/-- Value stored under one Redis key: an integer counter, a set of
strings, or an opaque cached blob. -/
inductive RVal where
  | int (n : Int)
  | set (s : Finset String)
  | blob (v : String)
deriving DecidableEq

/-- The set contained in a store value; empty for non-set values. -/
def rvalSet : RVal → Finset String
  | .set s => s
  | _ => ∅

/-- The shared key-value store (Redis), as an association list of keys
to values. -/
structure Store where
  entries : List (String × RVal)
deriving DecidableEq

namespace Store

/-- Value currently stored under a key, if any. -/
def get (st : Store) (k : String) : Option RVal :=
  (st.entries.find? (fun p => p.1 == k)).map (fun p => p.2)

/-- Redis DEL of a single key. -/
def del1 (st : Store) (k : String) : Store :=
  ⟨st.entries.filter (fun p => !(p.1 == k))⟩

/-- Redis SET-like write of a single key (also used to model the effect
of INCR and SADD). -/
def put (st : Store) (k : String) (v : RVal) : Store :=
  ⟨(k, v) :: (st.del1 k).entries⟩

/-- Redis DEL of a list of keys. -/
def del (st : Store) (ks : List String) : Store :=
  ks.foldl del1 st

/-- Redis DEL of a set of keys (the order in which the keys of the set
are passed to DEL is irrelevant to the resulting store). -/
def delSet (st : Store) (ks : Finset String) : Store :=
  ⟨st.entries.filter (fun p => decide (p.1 ∉ ks))⟩

/-- Redis GET of an integer key followed by the Python `int(v or 0)`
coercion: absent keys read as 0. -/
def getInt (st : Store) (k : String) : Int :=
  match st.get k with
  | some (.int n) => n
  | _ => 0

/-- Redis SMEMBERS: the set stored under a key, empty when absent. -/
def smembers (st : Store) (k : String) : Finset String :=
  match st.get k with
  | some (.set s) => s
  | _ => ∅

/-- Redis SUNION over a list of set keys. -/
def sunion (st : Store) (ks : List String) : Finset String :=
  ks.foldl (fun acc k => acc ∪ st.smembers k) ∅

/-- Redis SUNION over a set of set keys. -/
def sunionF (st : Store) (ks : Finset String) : Finset String :=
  ks.sup st.smembers

/-- Redis INCR: increment an integer key, treating an absent key as 0. -/
def incr (st : Store) (k : String) : Store :=
  st.put k (.int (st.getInt k + 1))

/-- Redis KEYS with a trailing-star pattern: all present keys that start
with the given literal part. -/
def keysMatching (st : Store) (pre : String) : List String :=
  (st.entries.map (fun p => p.1)).filter (fun k => pre.data.isPrefixOf k.data)

/-- Redis FLUSHDB: the empty store. -/
def flushdb : Store := ⟨[]⟩

end Store

/-- Python `','.join(scheme)` (`serialize_scheme`). -/
def serialize_scheme (scheme : List String) : String :=
  String.intercalate "," scheme

/-- Python `tuple(scheme.split(','))` (`deserialize_scheme`); splitting
on the single character ','. -/
def deserialize_scheme (s : String) : List String :=
  s.split (fun c => c == ',')

/-- Python dict lookup `values[f]` made fallible: `none` models the
`KeyError` raised when the field is absent. -/
def lookupField (values : List (String × String)) (f : String) : Option String :=
  (values.find? (fun p => p.1 == f)).map (fun p => p.2)

/-- List traversal of a fallible function, failing as soon as one
element fails (a Python comprehension raising on the first error). -/
def mapOpt (f : α → Option β) : List α → Option (List β)
  | [] => some []
  | a :: l =>
    match f a, mapOpt f l with
    | some b, some bs => some (b :: bs)
    | _, _ => none

/-- Comparison used by Python `sorted` on `(field, value)` pairs:
lexicographic on the pair. -/
def pairLe (a b : String × String) : Bool :=
  decide (a.1 < b.1) || (a.1 == b.1 && decide (a.2 ≤ b.2))

/-- Python `conj_cache_key`: `'conj:%s:' % model + '&'.join('%s=%s' % t
for t in sorted(conj))`. -/
def conj_cache_key (model : String) (conj : List (String × String)) : String :=
  "conj:" ++ model ++ ":" ++
    String.intercalate "&" ((conj.mergeSort pairLe).map (fun p => p.1 ++ "=" ++ p.2))

/-- Python `conj_cache_key_from_scheme`: `'conj:%s:' % model +
'&'.join('%s=%s' % (f, values[f]) for f in scheme)`; `none` when some
field of the scheme is absent from `values` (`KeyError`). -/
def conj_cache_key_from_scheme (model : String) (scheme : List String)
    (values : List (String × String)) : Option String :=
  (mapOpt (fun f => (lookupField values f).map (fun v => f ++ "=" ++ v)) scheme).map
    (fun parts => "conj:" ++ model ++ ":" ++ String.intercalate "&" parts)

/-- The `ConjSchemes` container: per-entity-type scheme sets cached in
process-local memory (`self.local`) plus local version counters
(`self.versions`). -/
structure ConjSchemes where
  locals : String → Option (Finset (List String))
  versions : String → Option Int

namespace ConjSchemes

/-- The freshly constructed container: `local = {}`, `versions = {}`. -/
def init : ConjSchemes := ⟨fun _ => none, fun _ => none⟩

/-- Update of one entry of a process-local map. -/
def updF (f : String → Option β) (k : String) (v : β) : String → Option β :=
  fun m => if m = k then some v else f m

/-- Python `get_lookup_key`: `'schemes:%s' % model_name`. -/
def get_lookup_key (model : String) : String :=
  "schemes:" ++ model

/-- Python `get_version_key`: `'schemes:%s:version' % model_name`. -/
def get_version_key (model : String) : String :=
  "schemes:" ++ model ++ ":version"

/-- Python `load_schemes`: read the store-side version and scheme set,
deserialize, always add the empty scheme, and cache both locally.
Returns the loaded scheme set together with the updated container. -/
def load_schemes (cs : ConjSchemes) (st : Store) (model : String) :
    Finset (List String) × ConjSchemes :=
  let version := st.getInt (get_version_key model)
  let members := st.smembers (get_lookup_key model)
  let schemes := insert ([] : List String) (members.image deserialize_scheme)
  (schemes, { locals := updF cs.locals model schemes,
              versions := updF cs.versions model version })

/-- Python `schemes`: the locally cached scheme set, loading from the
store on first access. -/
def schemes (cs : ConjSchemes) (st : Store) (model : String) :
    Finset (List String) × ConjSchemes :=
  match cs.locals model with
  | some s => (s, cs)
  | none => load_schemes cs st model

/-- Python `version`: the locally cached version, 0 when the entity type
was never loaded. -/
def version (cs : ConjSchemes) (model : String) : Int :=
  (cs.versions model).getD 0

/-- The write path of `ensure_known` (the Redis transaction plus the
local updates): INCR the version key, SADD each serialized scheme of
`new_schemes - schemes`, then merge `new_schemes` into the local set and
bump the local version by 1. -/
def ensure_known_write (cs : ConjSchemes) (st : Store) (model : String)
    (schemes new_schemes : Finset (List String)) : ConjSchemes × Store :=
  let st1 := st.incr (get_version_key model)
  let lookupKey := get_lookup_key model
  let st2 := st1.put lookupKey
    (RVal.set (st1.smembers lookupKey ∪ (new_schemes \ schemes).image serialize_scheme))
  ({ locals := updF cs.locals model (schemes ∪ new_schemes),
     versions := updF cs.versions model (version cs model + 1) }, st2)

/-- Python `ensure_known`: register newly discovered schemes. Loads the
local set when the entity type is unseen; when a delta remains, reloads
from the store (unless just loaded) and, if a delta still remains,
performs the write path. -/
def ensure_known (cs : ConjSchemes) (st : Store) (model : String)
    (new_schemes : Finset (List String)) : ConjSchemes × Store :=
  match cs.locals model with
  | none =>
    let p := load_schemes cs st model
    if (new_schemes \ p.1).Nonempty then
      ensure_known_write p.2 st model p.1 new_schemes
    else (p.2, st)
  | some s =>
    if (new_schemes \ s).Nonempty then
      let p := load_schemes cs st model
      if (new_schemes \ p.1).Nonempty then
        ensure_known_write p.2 st model p.1 new_schemes
      else (p.2, st)
    else (cs, st)

/-- Python `clear`: delete the store-side scheme set and increment the
store-side version; the local maps are untouched. -/
def clear (cs : ConjSchemes) (st : Store) (model : String) :
    ConjSchemes × Store :=
  (cs, (st.del1 (get_lookup_key model)).incr (get_version_key model))

/-- Python `clear_all`: drop the whole local cache and bump every known
local version counter; the store is untouched. -/
def clear_all (cs : ConjSchemes) : ConjSchemes :=
  { locals := fun _ => none, versions := fun m => (cs.versions m).map (fun v => v + 1) }

end ConjSchemes

/-- Error outcomes of `invalidate_from_dict`: the Python `KeyError`
escaping from `values[f]`, and the final `RuntimeError`. -/
inductive Err where
  | keyError
  | runtimeError
deriving DecidableEq

/-- The conjunction keys built from all locally known schemes and the
supplied field values (the list comprehension at the top of the retry
loop); `none` when some scheme hits a missing field (`KeyError`). -/
def conjs_keys_of (model : String) (schemes : Finset (List String))
    (values : List (String × String)) : Option (Finset String) :=
  if ∀ sc ∈ schemes, (conj_cache_key_from_scheme model sc values).isSome then
    some (schemes.image (fun sc => (conj_cache_key_from_scheme model sc values).getD ""))
  else none

/-- One attempt of the retry loop of `invalidate_from_dict`: build the
conjunction keys, run the transaction (read version, SUNION the
conj-sets, delete the conj-sets), delete the unioned cache keys, then
compare the read version with the local one. `inl` is the successful
return; `inr` carries the state after `load_schemes` for the next
attempt. -/
def invalidate_attempt (model : String) (values : List (String × String))
    (vkey : String) (cs : ConjSchemes) (schemes : Finset (List String)) (st : Store) :
    Except Err ((ConjSchemes × Store) ⊕ (ConjSchemes × Finset (List String) × Store)) :=
  match conjs_keys_of model schemes values with
  | none => .error .keyError
  | some conjsKeys =>
    let version := st.getInt vkey
    let cacheKeys := st.sunionF conjsKeys
    let st1 := st.delSet conjsKeys
    let st2 := if cacheKeys.Nonempty then st1.delSet cacheKeys else st1
    if version = cs.version model then
      .ok (.inl (cs, st2))
    else
      let p := ConjSchemes.load_schemes cs st2 model
      .ok (.inr (p.2, p.1, st2))

/-- The store state after one attempt's deletions: the conj-sets named
by `ks` are deleted, then (when non-empty) the union of their cache keys
is deleted. -/
def attemptStore (st : Store) (ks : Finset String) : Store :=
  if (st.sunionF ks).Nonempty then (st.delSet ks).delSet (st.sunionF ks)
  else st.delSet ks

/-- The bounded retry loop (`while try_count > 0`), with `interf`
modelling writes of other processes applied to the store at the start of
each attempt (indexed by remaining budget); exhausting the budget is the
`RuntimeError` raise. -/
def invalidate_loop (interf : Nat → Store → Store) (model : String)
    (values : List (String × String)) (vkey : String) :
    Nat → ConjSchemes → Finset (List String) → Store →
    Except Err Unit × ConjSchemes × Store
  | 0, cs, _, st => (.error .runtimeError, cs, st)
  | n + 1, cs, schemes, st =>
    match invalidate_attempt model values vkey cs schemes (interf n st) with
    | .error e => (.error e, cs, interf n st)
    | .ok (.inl r) => (.ok (), r.1, r.2)
    | .ok (.inr r) => invalidate_loop interf model values vkey n r.1 r.2.1 r.2.2

/-- Interference of an isolated call: no other process touches the
store. -/
def idInterf : Nat → Store → Store := fun _ st => st

/-- Python `invalidate_from_dict`: compute the version key, read the
locally known schemes (loading on first access), then run the retry loop
with a budget of 3 attempts. -/
def invalidate_from_dict (interf : Nat → Store → Store) (cs : ConjSchemes)
    (st : Store) (model : String) (values : List (String × String)) :
    Except Err Unit × ConjSchemes × Store :=
  let vkey := ConjSchemes.get_version_key model
  let p := ConjSchemes.schemes cs st model
  invalidate_loop interf model values vkey 3 p.2 p.1 st

/-- Python `invalidate_model`: KEYS-scan all conjunction keys of the
entity type, SUNION their cache keys, delete cache keys plus conjunction
keys, then `cache_schemes.clear(model)`. The `isinstance(conjs_keys,
str)` branch of the source only re-splits a transport-level string reply
into the same key list and is absorbed by the list-valued scan here. -/
def invalidate_model (cs : ConjSchemes) (st : Store) (model : String) :
    ConjSchemes × Store :=
  let conjsKeys := st.keysMatching ("conj:" ++ model ++ ":")
  let st1 :=
    if conjsKeys ≠ [] then
      let cacheKeys := st.sunion conjsKeys
      (st.delSet cacheKeys).del conjsKeys
    else st
  ConjSchemes.clear cs st1 model

/-- Python `invalidate_all`: FLUSHDB then `cache_schemes.clear_all()`. -/
def invalidate_all (cs : ConjSchemes) (_st : Store) : ConjSchemes × Store :=
  (ConjSchemes.clear_all cs, Store.flushdb)

/-- Operations of the subsystem, for stating properties of operation
sequences. -/
inductive Op where
  | ensureKnown (model : String) (ns : Finset (List String))
  | loadSchemes (model : String)
  | getSchemes (model : String)
  | clearOp (model : String)
  | invalidateModel (model : String)
  | invalidateDict (model : String) (values : List (String × String))
  | invalidateAll

/-- One operation applied to the joint state (process-local container,
shared store). -/
def step : ConjSchemes × Store → Op → ConjSchemes × Store
  | (cs, st), .ensureKnown m ns => ConjSchemes.ensure_known cs st m ns
  | (cs, st), .loadSchemes m => ((ConjSchemes.load_schemes cs st m).2, st)
  | (cs, st), .getSchemes m => ((ConjSchemes.schemes cs st m).2, st)
  | (cs, st), .clearOp m => ConjSchemes.clear cs st m
  | (cs, st), .invalidateModel m => invalidate_model cs st m
  | (cs, st), .invalidateDict m vs => (invalidate_from_dict idInterf cs st m vs).2
  | (cs, st), .invalidateAll => invalidate_all cs st

/-- Well-formedness of the process-local scheme cache: every cached
scheme set contains the empty scheme (every code path that fills an
entry inserts it). -/
def LocalsWF (cs : ConjSchemes) : Prop :=
  ∀ m s, cs.locals m = some s → [] ∈ s

/-- Hygiene of the store contents: a conj-set (a set stored under a
`conj:`-named key) contains only cache keys, never a `schemes:`-named
registry key. -/
def ConjOK (st : Store) : Prop :=
  ∀ k q, "conj:".data <+: k.data → q ∈ st.smembers k →
    ¬ ("schemes:".data <+: q.data)

/-- Hygiene of an operation: entity-type names contain no colon (the
key-naming format reserves it), and the operation is not the full
flush. -/
def OpOK : Op → Prop
  | .ensureKnown m _ => ':' ∉ m.data
  | .loadSchemes _ => True
  | .getSchemes _ => True
  | .clearOp m => ':' ∉ m.data
  | .invalidateModel m => ':' ∉ m.data
  | .invalidateDict _ _ => True
  | .invalidateAll => False

/-! Lemmas about the store primitives. -/

theorem find_filter_ne (l : List (String × RVal)) (k k' : String) :
    ((l.filter (fun p => !(p.1 == k))).find? (fun p => p.1 == k')) =
      if k' = k then none else l.find? (fun p => p.1 == k') := by
  induction l with
  | nil => simp
  | cons a t ih =>
    by_cases hak : a.1 = k
    · by_cases hak' : a.1 = k'
      · have : k' = k := hak' ▸ hak
        simp [List.filter, List.find?, hak, this, ih]
      · simp only [List.filter_cons, hak, beq_self_eq_true, Bool.not_true,
          Bool.false_eq_true, if_false, ih]
        rcases eq_or_ne k' k with h | h
        · simp [h]
        · simp [h, List.find?, show (a.1 == k') = false from beq_eq_false_iff_ne.2 hak']
    · by_cases hak' : a.1 = k'
      · have hkk : ¬ k' = k := fun h => hak (hak' ▸ h)
        simp [List.filter_cons, show (a.1 == k) = false from beq_eq_false_iff_ne.2 hak,
          List.find?, hak', hkk]
      · simp [List.filter_cons, show (a.1 == k) = false from beq_eq_false_iff_ne.2 hak,
          List.find?, show (a.1 == k') = false from beq_eq_false_iff_ne.2 hak', ih]

theorem Store.get_del1 (st : Store) (k k' : String) :
    (st.del1 k).get k' = if k' = k then none else st.get k' := by
  simp only [Store.get, Store.del1, find_filter_ne]
  split <;> rfl

theorem Store.get_put (st : Store) (k k' : String) (v : RVal) :
    (st.put k v).get k' = if k' = k then some v else st.get k' := by
  rcases eq_or_ne k' k with h | h
  · subst h
    simp [Store.get, Store.put, List.find?_cons_of_pos]
  · have hd := Store.get_del1 st k k'
    rw [if_neg h] at hd
    rw [if_neg h]
    show ((st.put k v).entries.find? (fun p => p.1 == k')).map (fun p => p.2) = st.get k'
    rw [Store.put, List.find?_cons_of_neg _ (by simpa using Ne.symm h)]
    exact hd

theorem Store.get_del (st : Store) (ks : List String) (k' : String) :
    (st.del ks).get k' = if k' ∈ ks then none else st.get k' := by
  induction ks generalizing st with
  | nil => simp [Store.del]
  | cons a t ih =>
    have : Store.del st (a :: t) = Store.del (st.del1 a) t := rfl
    rw [this, ih, Store.get_del1]
    rcases List.mem_cons.symm with _
    by_cases h1 : k' ∈ t
    · simp [h1, List.mem_cons]
    · by_cases h2 : k' = a <;> simp [h1, h2, List.mem_cons]

theorem find_filter_notmem (l : List (String × RVal)) (ks : Finset String) (k' : String) :
    ((l.filter (fun p => decide (p.1 ∉ ks))).find? (fun p => p.1 == k')) =
      if k' ∈ ks then none else l.find? (fun p => p.1 == k') := by
  induction l with
  | nil => by_cases hk : k' ∈ ks <;> simp [hk]
  | cons a t ih =>
    by_cases hmem : a.1 ∈ ks
    · rw [List.filter_cons, if_neg (by simpa using hmem), ih]
      by_cases hk : k' ∈ ks
      · simp [hk]
      · have hbeq : ¬ ((a.1 == k') = true) := by
          simp only [beq_iff_eq]
          exact fun h => hk (h ▸ hmem)
        rw [if_neg hk, if_neg hk, List.find?_cons_of_neg (p := fun p => p.1 == k') (a := a) t hbeq]
    · rw [List.filter_cons, if_pos (by simpa using hmem)]
      by_cases hak' : a.1 = k'
      · have hk : k' ∉ ks := hak' ▸ hmem
        rw [if_neg hk,
          List.find?_cons_of_pos (p := fun p => p.1 == k') (a := a) (List.filter (fun p => decide (p.1 ∉ ks)) t) (by simpa using hak'),
          List.find?_cons_of_pos (p := fun p => p.1 == k') (a := a) t (by simpa using hak')]
      · have hbeq : ¬ ((a.1 == k') = true) := by simpa using hak'
        rw [List.find?_cons_of_neg (p := fun p => p.1 == k') (a := a) (List.filter (fun p => decide (p.1 ∉ ks)) t) hbeq, ih]
        by_cases hk : k' ∈ ks
        · simp [hk]
        · rw [if_neg hk, if_neg hk, List.find?_cons_of_neg (p := fun p => p.1 == k') (a := a) t hbeq]

theorem Store.get_delSet (st : Store) (ks : Finset String) (k' : String) :
    (st.delSet ks).get k' = if k' ∈ ks then none else st.get k' := by
  simp only [Store.get, Store.delSet, find_filter_notmem]
  split <;> rfl

theorem Store.smembers_eq (st : Store) (k : String) :
    st.smembers k = match st.get k with | some (.set s) => s | _ => ∅ := rfl

theorem Store.mem_sunion (st : Store) (ks : List String) (q : String) :
    q ∈ st.sunion ks ↔ ∃ k ∈ ks, q ∈ st.smembers k := by
  have main : ∀ (l : List String) (acc : Finset String),
      q ∈ l.foldl (fun acc k => acc ∪ st.smembers k) acc ↔
        q ∈ acc ∨ ∃ k ∈ l, q ∈ st.smembers k := by
    intro l
    induction l with
    | nil => simp
    | cons a t ih =>
      intro acc
      simp only [List.foldl_cons, ih, Finset.mem_union, List.mem_cons]
      constructor
      · rintro ((h | h) | ⟨k, hk, hq⟩)
        · exact Or.inl h
        · exact Or.inr ⟨a, Or.inl rfl, h⟩
        · exact Or.inr ⟨k, Or.inr hk, hq⟩
      · rintro (h | ⟨k, (rfl | hk), hq⟩)
        · exact Or.inl (Or.inl h)
        · exact Or.inl (Or.inr hq)
        · exact Or.inr ⟨k, hk, hq⟩
  simpa [Store.sunion] using main ks ∅

theorem Store.mem_sunionF (st : Store) (ks : Finset String) (q : String) :
    q ∈ st.sunionF ks ↔ ∃ k ∈ ks, q ∈ st.smembers k := by
  simp [Store.sunionF, Finset.mem_sup]

theorem Store.getInt_incr_self (st : Store) (k : String) :
    (st.incr k).getInt k = st.getInt k + 1 := by
  simp [Store.incr, Store.getInt, Store.get_put]

theorem Store.getInt_incr_ne (st : Store) (k k' : String) (h : k' ≠ k) :
    (st.incr k).getInt k' = st.getInt k' := by
  simp [Store.incr, Store.getInt, Store.get_put, h]

theorem Store.getInt_put_ne (st : Store) (k k' : String) (v : RVal) (h : k' ≠ k) :
    (st.put k v).getInt k' = st.getInt k' := by
  simp [Store.getInt, Store.get_put, h]

theorem Store.getInt_incr_ge (st : Store) (k k' : String) :
    st.getInt k' ≤ (st.incr k).getInt k' := by
  rcases eq_or_ne k' k with h | h
  · subst h
    rw [Store.getInt_incr_self]
    omega
  · rw [Store.getInt_incr_ne st k k' h]

theorem Store.getInt_del1_ne (st : Store) (k k' : String) (h : k' ≠ k) :
    (st.del1 k).getInt k' = st.getInt k' := by
  simp [Store.getInt, Store.get_del1, h]

theorem Store.getInt_del_notmem (st : Store) (ks : List String) (k' : String)
    (h : k' ∉ ks) : (st.del ks).getInt k' = st.getInt k' := by
  simp [Store.getInt, Store.get_del, h]

theorem Store.getInt_delSet_notmem (st : Store) (ks : Finset String) (k' : String)
    (h : k' ∉ ks) : (st.delSet ks).getInt k' = st.getInt k' := by
  simp [Store.getInt, Store.get_delSet, h]

theorem Store.mem_keysMatching (st : Store) (pre k : String) :
    k ∈ st.keysMatching pre ↔ (∃ v, (k, v) ∈ st.entries) ∧ pre.data <+: k.data := by
  simp only [Store.keysMatching, List.mem_filter, List.mem_map, List.isPrefixOf_iff_prefix]
  constructor
  · rintro ⟨⟨p, hp, rfl⟩, h2⟩
    exact ⟨⟨p.2, hp⟩, h2⟩
  · rintro ⟨⟨v, hv⟩, h2⟩
    exact ⟨⟨(k, v), hv, rfl⟩, h2⟩

/-! Facts about the shape of the store key names. -/

theorem schemes_data : "schemes:".data = ['s', 'c', 'h', 'e', 'm', 'e', 's', ':'] := rfl

theorem conj_data : "conj:".data = ['c', 'o', 'n', 'j', ':'] := rfl

theorem not_conj_pre_schemes (x : String) :
    ¬ ("conj:".data <+: ("schemes:" ++ x).data) := by
  rintro ⟨t, h⟩
  rw [String.data_append] at h
  simp at h

theorem schemes_pre_vkey (m : String) :
    "schemes:".data <+: (ConjSchemes.get_version_key m).data := by
  refine ⟨m.data ++ ":version".data, ?_⟩
  simp [ConjSchemes.get_version_key, String.data_append]

theorem conj_pre_conj_key (m rest : String) :
    "conj:".data <+: ("conj:" ++ m ++ ":" ++ rest).data := by
  refine ⟨m.data ++ ":".data ++ rest.data, ?_⟩
  simp [String.data_append]

theorem conj_key_shape (m : String) (sc : List String) (vs : List (String × String))
    (k : String) (h : conj_cache_key_from_scheme m sc vs = some k) :
    ∃ rest, k = "conj:" ++ m ++ ":" ++ rest := by
  unfold conj_cache_key_from_scheme at h
  rcases hm : mapOpt (fun f => (lookupField vs f).map (fun v => f ++ "=" ++ v)) sc with _ | parts
  · rw [hm] at h
    simp at h
  · rw [hm] at h
    simp only [Option.map_some', Option.some.injEq] at h
    exact ⟨String.intercalate "&" parts, h.symm⟩

theorem conj_key_not_schemes_pre (m : String) (sc : List String)
    (vs : List (String × String)) (k : String)
    (h : conj_cache_key_from_scheme m sc vs = some k) :
    ¬ ("schemes:".data <+: k.data) := by
  obtain ⟨rest, rfl⟩ := conj_key_shape m sc vs k h
  rintro ⟨t, ht⟩
  have : ("conj:" ++ m ++ ":" ++ rest).data = "conj:".data ++ (m.data ++ ":".data ++ rest.data) := by
    simp [String.data_append]
  rw [this] at ht
  simp at ht

theorem vkey_ne_conj_key (m m' rest : String) :
    ConjSchemes.get_version_key m ≠ "conj:" ++ m' ++ ":" ++ rest := by
  intro h
  have h2 : "conj:".data <+: (ConjSchemes.get_version_key m).data := by
    rw [h]
    exact conj_pre_conj_key m' rest
  rw [show ConjSchemes.get_version_key m = "schemes:" ++ (m ++ ":version") from by
    simp [ConjSchemes.get_version_key, String.append_assoc]] at h2
  exact not_conj_pre_schemes _ h2

theorem lookup_ne_vkey (t m : String) (ht : ':' ∉ t.data) :
    ConjSchemes.get_lookup_key t ≠ ConjSchemes.get_version_key m := by
  intro h
  rw [String.ext_iff] at h
  simp only [ConjSchemes.get_lookup_key, ConjSchemes.get_version_key,
    String.data_append, List.append_assoc] at h
  have h2 := List.append_cancel_left h
  apply ht
  rw [h2]
  exact List.mem_append.2 (Or.inr (by decide))

theorem mapOpt_eq_none_iff (f : α → Option β) (l : List α) :
    mapOpt f l = none ↔ ∃ a ∈ l, f a = none := by
  induction l with
  | nil => simp [mapOpt]
  | cons a t ih =>
    constructor
    · intro h
      rcases ha : f a with _ | b
      · exact ⟨a, List.mem_cons_self a t, ha⟩
      · rcases ht : mapOpt f t with _ | bs
        · obtain ⟨x, hx, hfx⟩ := ih.1 ht
          exact ⟨x, List.mem_cons_of_mem a hx, hfx⟩
        · rw [mapOpt, ha, ht] at h
          cases h
    · rintro ⟨x, hx, hfx⟩
      rcases List.mem_cons.1 hx with rfl | hx2
      · rw [mapOpt, hfx]
      · have ht := ih.2 ⟨x, hx2, hfx⟩
        rw [mapOpt, ht]
        rcases f a with _ | b <;> rfl

theorem mapOpt_of_isSome (f : α → Option β) (d : β) (l : List α)
    (h : ∀ a ∈ l, (f a).isSome) :
    mapOpt f l = some (l.map (fun a => (f a).getD d)) := by
  induction l with
  | nil => simp [mapOpt]
  | cons a t ih =>
    have ha := h a (List.mem_cons_self a t)
    rcases hfa : f a with _ | b
    · rw [hfa] at ha
      cases ha
    · rw [mapOpt, hfa, ih (fun x hx => h x (List.mem_cons_of_mem a hx))]
      simp [hfa]

theorem conjs_keys_of_eq_none_iff (m : String) (S : Finset (List String))
    (vs : List (String × String)) :
    conjs_keys_of m S vs = none ↔
      ∃ sc ∈ S, conj_cache_key_from_scheme m sc vs = none := by
  unfold conjs_keys_of
  split
  · rename_i h
    constructor
    · intro hc
      cases hc
    · rintro ⟨sc, hsc, hn⟩
      exact absurd (h sc hsc) (by simp [hn])
  · rename_i h
    push_neg at h
    obtain ⟨sc, hsc, hn⟩ := h
    exact ⟨fun _ => ⟨sc, hsc, Option.not_isSome_iff_eq_none.1 hn⟩, fun _ => rfl⟩

theorem mem_conjs_keys_of (m : String) (S : Finset (List String))
    (vs : List (String × String)) (ks : Finset String) (k : String)
    (h : conjs_keys_of m S vs = some ks) (hk : k ∈ ks) :
    ∃ sc ∈ S, conj_cache_key_from_scheme m sc vs = some k := by
  unfold conjs_keys_of at h
  split at h
  · rename_i hall
    rw [Option.some.injEq] at h
    subst h
    obtain ⟨sc, hsc, him⟩ := Finset.mem_image.1 hk
    refine ⟨sc, hsc, ?_⟩
    have hs := hall sc hsc
    rcases hv : conj_cache_key_from_scheme m sc vs with _ | v
    · rw [hv] at hs
      cases hs
    · rw [hv] at him
      simp only [Option.getD_some] at him
      rw [him]
  · cases h

theorem conjs_keys_of_mem (m : String) (S : Finset (List String))
    (vs : List (String × String)) (ks : Finset String) (sc : List String) (k : String)
    (h : conjs_keys_of m S vs = some ks) (hsc : sc ∈ S)
    (hk : conj_cache_key_from_scheme m sc vs = some k) : k ∈ ks := by
  unfold conjs_keys_of at h
  split at h
  · rw [Option.some.injEq] at h
    subst h
    exact Finset.mem_image.2 ⟨sc, hsc, by simp [hk]⟩
  · cases h

theorem lookup_ne_vkey_same (m : String) :
    ConjSchemes.get_lookup_key m ≠ ConjSchemes.get_version_key m := by
  intro h
  rw [String.ext_iff] at h
  simp only [ConjSchemes.get_lookup_key, ConjSchemes.get_version_key,
    String.data_append, List.append_assoc] at h
  have h2 := List.append_cancel_left h
  have := congrArg List.length h2
  simp at this

/-! Lemmas about the registry operations. -/

theorem load_schemes_fst (cs : ConjSchemes) (st : Store) (m : String) :
    (ConjSchemes.load_schemes cs st m).1 =
      insert ([] : List String)
        ((st.smembers (ConjSchemes.get_lookup_key m)).image deserialize_scheme) := rfl

theorem load_schemes_locals (cs : ConjSchemes) (st : Store) (m m2 : String) :
    ((ConjSchemes.load_schemes cs st m).2).locals m2 =
      if m2 = m then some (ConjSchemes.load_schemes cs st m).1 else cs.locals m2 := rfl

theorem load_schemes_versions (cs : ConjSchemes) (st : Store) (m m2 : String) :
    ((ConjSchemes.load_schemes cs st m).2).versions m2 =
      if m2 = m then some (st.getInt (ConjSchemes.get_version_key m)) else cs.versions m2 := rfl

theorem load_schemes_version (cs : ConjSchemes) (st : Store) (m : String) :
    ConjSchemes.version ((ConjSchemes.load_schemes cs st m).2) m =
      st.getInt (ConjSchemes.get_version_key m) := by
  simp [ConjSchemes.version, load_schemes_versions]

theorem empty_mem_load_schemes (cs : ConjSchemes) (st : Store) (m : String) :
    [] ∈ (ConjSchemes.load_schemes cs st m).1 :=
  Finset.mem_insert_self _ _

theorem LocalsWF.load (cs : ConjSchemes) (st : Store) (m : String)
    (h : LocalsWF cs) : LocalsWF (ConjSchemes.load_schemes cs st m).2 := by
  intro m2 s hs
  rw [load_schemes_locals] at hs
  split at hs
  · rw [Option.some.injEq] at hs
    subst hs
    exact empty_mem_load_schemes cs st m
  · exact h m2 s hs

theorem empty_mem_schemes (cs : ConjSchemes) (st : Store) (m : String)
    (h : LocalsWF cs) : [] ∈ (ConjSchemes.schemes cs st m).1 := by
  unfold ConjSchemes.schemes
  rcases hl : cs.locals m with _ | s
  · exact empty_mem_load_schemes cs st m
  · exact h m s hl

theorem LocalsWF.schemes (cs : ConjSchemes) (st : Store) (m : String)
    (h : LocalsWF cs) : LocalsWF (ConjSchemes.schemes cs st m).2 := by
  unfold ConjSchemes.schemes
  rcases cs.locals m with _ | s
  · exact LocalsWF.load cs st m h
  · exact h

/-! Lemmas about the invalidation attempt and retry loop. -/

theorem invalidate_attempt_err (m : String) (vs : List (String × String))
    (vk : String) (cs : ConjSchemes) (S : Finset (List String)) (st : Store)
    (h : conjs_keys_of m S vs = none) :
    invalidate_attempt m vs vk cs S st = .error .keyError := by
  unfold invalidate_attempt
  rw [h]

theorem invalidate_attempt_eq (m : String) (vs : List (String × String))
    (vk : String) (cs : ConjSchemes) (S : Finset (List String)) (st : Store)
    (ks : Finset String) (hks : conjs_keys_of m S vs = some ks) :
    invalidate_attempt m vs vk cs S st =
      (if st.getInt vk = ConjSchemes.version cs m then
        Except.ok (Sum.inl (cs, attemptStore st ks))
       else
        Except.ok (Sum.inr ((ConjSchemes.load_schemes cs (attemptStore st ks) m).2,
          (ConjSchemes.load_schemes cs (attemptStore st ks) m).1, attemptStore st ks))) := by
  unfold invalidate_attempt
  rw [hks]
  rfl

theorem attemptStore_get_conj (st : Store) (ks : Finset String) (k : String)
    (hk : k ∈ ks) : (attemptStore st ks).get k = none := by
  unfold attemptStore
  split
  · rw [Store.get_delSet]
    split
    · rfl
    · rw [Store.get_delSet, if_pos hk]
  · rw [Store.get_delSet, if_pos hk]

theorem attemptStore_get_cache (st : Store) (ks : Finset String) (q : String)
    (hq : q ∈ st.sunionF ks) : (attemptStore st ks).get q = none := by
  unfold attemptStore
  rw [if_pos ⟨q, hq⟩]
  rw [Store.get_delSet, if_pos hq]

theorem attemptStore_get_none (st : Store) (ks : Finset String) (k : String)
    (h : st.get k = none) : (attemptStore st ks).get k = none := by
  unfold attemptStore
  split
  · rw [Store.get_delSet]
    split
    · rfl
    · rw [Store.get_delSet]
      split
      · rfl
      · exact h
  · rw [Store.get_delSet]
    split
    · rfl
    · exact h

theorem invalidate_loop_zero (interf : Nat → Store → Store) (m : String)
    (vs : List (String × String)) (vk : String) (cs : ConjSchemes)
    (S : Finset (List String)) (st : Store) :
    invalidate_loop interf m vs vk 0 cs S st = (.error .runtimeError, cs, st) := rfl

theorem invalidate_loop_inl (interf : Nat → Store → Store) (m : String)
    (vs : List (String × String)) (vk : String) (n : Nat) (cs : ConjSchemes)
    (S : Finset (List String)) (st : Store) (c : ConjSchemes) (s2 : Store)
    (h : invalidate_attempt m vs vk cs S (interf n st) = .ok (.inl (c, s2))) :
    invalidate_loop interf m vs vk (n + 1) cs S st = (.ok (), c, s2) := by
  unfold invalidate_loop
  rw [h]

theorem invalidate_loop_inr (interf : Nat → Store → Store) (m : String)
    (vs : List (String × String)) (vk : String) (n : Nat) (cs : ConjSchemes)
    (S : Finset (List String)) (st : Store) (c : ConjSchemes)
    (S2 : Finset (List String)) (s2 : Store)
    (h : invalidate_attempt m vs vk cs S (interf n st) = .ok (.inr (c, S2, s2))) :
    invalidate_loop interf m vs vk (n + 1) cs S st =
      invalidate_loop interf m vs vk n c S2 s2 := by
  conv_lhs => rw [invalidate_loop]
  rw [h]

theorem invalidate_loop_err (interf : Nat → Store → Store) (m : String)
    (vs : List (String × String)) (vk : String) (n : Nat) (cs : ConjSchemes)
    (S : Finset (List String)) (st : Store) (e : Err)
    (h : invalidate_attempt m vs vk cs S (interf n st) = .error e) :
    invalidate_loop interf m vs vk (n + 1) cs S st = (.error e, cs, interf n st) := by
  unfold invalidate_loop
  rw [h]

theorem invalidate_loop_no_new (m : String) (vs : List (String × String))
    (vk : String) (n : Nat) (cs : ConjSchemes) (S : Finset (List String))
    (st : Store) (k : String) (h : st.get k = none) :
    ((invalidate_loop idInterf m vs vk n cs S st).2.2).get k = none := by
  induction n generalizing cs S st with
  | zero => exact h
  | succ n ih =>
    rcases hc : conjs_keys_of m S vs with _ | ks
    · rw [invalidate_loop_err idInterf m vs vk n cs S st .keyError
        (invalidate_attempt_err m vs vk cs S (idInterf n st) hc)]
      exact h
    · by_cases hv : (idInterf n st).getInt vk = ConjSchemes.version cs m
      · rw [invalidate_loop_inl idInterf m vs vk n cs S st cs
          (attemptStore (idInterf n st) ks)
          (by rw [invalidate_attempt_eq m vs vk cs S (idInterf n st) ks hc, if_pos hv])]
        exact attemptStore_get_none (idInterf n st) ks k h
      · rw [invalidate_loop_inr idInterf m vs vk n cs S st _ _ _
          (by rw [invalidate_attempt_eq m vs vk cs S (idInterf n st) ks hc, if_neg hv])]
        exact ih _ _ _ (attemptStore_get_none (idInterf n st) ks k h)

theorem invalidate_from_dict_eq (interf : Nat → Store → Store) (cs : ConjSchemes)
    (st : Store) (model : String) (values : List (String × String))
    (S : Finset (List String)) (cs0 : ConjSchemes)
    (hS : ConjSchemes.schemes cs st model = (S, cs0)) :
    invalidate_from_dict interf cs st model values =
      invalidate_loop interf model values (ConjSchemes.get_version_key model) 3 cs0 S st := by
  unfold invalidate_from_dict
  rw [hS]

theorem conj_key_from_scheme_none (model : String) (sc : List String)
    (values : List (String × String)) (f : String) (hf : f ∈ sc)
    (hmiss : lookupField values f = none) :
    conj_cache_key_from_scheme model sc values = none := by
  unfold conj_cache_key_from_scheme
  rw [(mapOpt_eq_none_iff _ _).2 ⟨f, hf, by rw [hmiss]; rfl⟩]
  rfl

/-- C1: a successful `invalidate_from_dict` call deletes, from the
store, every conj-set named by the conjunction keys built from the
locally known schemes and the supplied values, and every cache key those
conj-sets contained. -/
theorem invalidate_coverage (cs : ConjSchemes) (st : Store) (model : String)
    (values : List (String × String)) (S : Finset (List String))
    (cs0 : ConjSchemes) (ks : Finset String)
    (hS : ConjSchemes.schemes cs st model = (S, cs0))
    (hks : conjs_keys_of model S values = some ks)
    (hok : (invalidate_from_dict idInterf cs st model values).1 = .ok ()) :
    ∀ k ∈ ks, (invalidate_from_dict idInterf cs st model values).2.2.get k = none ∧
      ∀ q ∈ st.smembers k,
        (invalidate_from_dict idInterf cs st model values).2.2.get q = none := by
  clear hok
  intro k hk
  rw [invalidate_from_dict_eq idInterf cs st model values S cs0 hS]
  by_cases hv : st.getInt (ConjSchemes.get_version_key model) = ConjSchemes.version cs0 model
  · rw [invalidate_loop_inl idInterf model values (ConjSchemes.get_version_key model) 2
      cs0 S st cs0 (attemptStore st ks)
      (by rw [invalidate_attempt_eq model values (ConjSchemes.get_version_key model) cs0 S
          (idInterf 2 st) ks hks]
          simp only [idInterf]
          rw [if_pos hv])]
    constructor
    · exact attemptStore_get_conj st ks k hk
    · intro q hq
      exact attemptStore_get_cache st ks q ((Store.mem_sunionF st ks q).2 ⟨k, hk, hq⟩)
  · rw [invalidate_loop_inr idInterf model values (ConjSchemes.get_version_key model) 2
      cs0 S st _ _ _
      (by rw [invalidate_attempt_eq model values (ConjSchemes.get_version_key model) cs0 S
          (idInterf 2 st) ks hks]
          simp only [idInterf]
          rw [if_neg hv])]
    constructor
    · exact invalidate_loop_no_new model values (ConjSchemes.get_version_key model) 2 _ _ _ k
        (attemptStore_get_conj st ks k hk)
    · intro q hq
      exact invalidate_loop_no_new model values (ConjSchemes.get_version_key model) 2 _ _ _ q
        (attemptStore_get_cache st ks q ((Store.mem_sunionF st ks q).2 ⟨k, hk, hq⟩))

/-- C1 witness: the spec scenario. Entity type `Order`, known schemes
`{(), (status,)}`, conj-sets `conj:Order:` and `conj:Order:status=paid`
both tagging `q1`; invalidating `{status: paid, id: 7}` deletes `q1` and
both conj-sets. -/
theorem invalidate_coverage_witness :
    ((invalidate_from_dict idInterf
        ⟨ConjSchemes.updF (fun _ => none) "Order" {([] : List String), ["status"]},
         ConjSchemes.updF (fun _ => none) "Order" 0⟩
        ⟨[("conj:Order:", RVal.set {"q1"}), ("conj:Order:status=paid", RVal.set {"q1"}),
          ("q1", RVal.blob "r")]⟩
        "Order" [("status", "paid"), ("id", "7")]).2.2.get "q1" = none) ∧
    ((invalidate_from_dict idInterf
        ⟨ConjSchemes.updF (fun _ => none) "Order" {([] : List String), ["status"]},
         ConjSchemes.updF (fun _ => none) "Order" 0⟩
        ⟨[("conj:Order:", RVal.set {"q1"}), ("conj:Order:status=paid", RVal.set {"q1"}),
          ("q1", RVal.blob "r")]⟩
        "Order" [("status", "paid"), ("id", "7")]).2.2.get "conj:Order:" = none) := by
  have h := invalidate_coverage
    ⟨ConjSchemes.updF (fun _ => none) "Order" {([] : List String), ["status"]},
     ConjSchemes.updF (fun _ => none) "Order" 0⟩
    ⟨[("conj:Order:", RVal.set {"q1"}), ("conj:Order:status=paid", RVal.set {"q1"}),
      ("q1", RVal.blob "r")]⟩
    "Order" [("status", "paid"), ("id", "7")]
    {([] : List String), ["status"]}
    ⟨ConjSchemes.updF (fun _ => none) "Order" {([] : List String), ["status"]},
     ConjSchemes.updF (fun _ => none) "Order" 0⟩
    {"conj:Order:", "conj:Order:status=paid"}
    rfl (by decide) rfl
  refine ⟨(h "conj:Order:" (by decide)).2 "q1" (by decide), (h "conj:Order:" (by decide)).1⟩

/-- C2 counterexample: the claim says a scheme whose fields are not all
present in the supplied values is skipped and no error is raised; on the
code, with known schemes `{(), (status,)}` and values `{id: 7}` the
lookup `values[status]` raises (`KeyError`), so the call errors rather
than skipping. -/
theorem invalidate_missing_field_counterexample :
    (invalidate_from_dict idInterf
      ⟨ConjSchemes.updF (fun _ => none) "Order" {([] : List String), ["status"]},
       ConjSchemes.updF (fun _ => none) "Order" 0⟩
      ⟨[]⟩ "Order" [("id", "7")]).1 = Except.error Err.keyError := rfl

/-- C2 (amended): a known scheme whose fields are not all present in the
supplied values makes `invalidate_from_dict` fail with a `KeyError`
rather than being skipped; the empty scheme always yields the bare
conjunction key `conj:<model>:`. -/
theorem invalidate_missing_field (cs : ConjSchemes) (st : Store) (model : String)
    (values : List (String × String)) (S : Finset (List String)) (cs0 : ConjSchemes)
    (hS : ConjSchemes.schemes cs st model = (S, cs0))
    (hmiss : ∃ sc ∈ S, ∃ f ∈ sc, lookupField values f = none) :
    (invalidate_from_dict idInterf cs st model values).1 = .error .keyError ∧
    ∀ m2 : String, conj_cache_key_from_scheme m2 [] values = some ("conj:" ++ m2 ++ ":") := by
  constructor
  · obtain ⟨sc, hsc, f, hf, hm⟩ := hmiss
    rw [invalidate_from_dict_eq idInterf cs st model values S cs0 hS]
    rw [invalidate_loop_err idInterf model values (ConjSchemes.get_version_key model) 2
      cs0 S st .keyError
      (invalidate_attempt_err model values (ConjSchemes.get_version_key model) cs0 S
        (idInterf 2 st)
        ((conjs_keys_of_eq_none_iff model S values).2
          ⟨sc, hsc, conj_key_from_scheme_none model sc values f hf hm⟩))]
  · intro m2
    show some ("conj:" ++ m2 ++ ":" ++ String.intercalate "&" []) = _
    rw [show String.intercalate "&" [] = "" from rfl, String.append_empty]

/-- C2 witness: with scheme `(status,)` known and values lacking
`status`, the call errors with `KeyError`. -/
theorem invalidate_missing_field_witness :
    (invalidate_from_dict idInterf
      ⟨ConjSchemes.updF (fun _ => none) "Pet" {([] : List String), ["status"]},
       ConjSchemes.updF (fun _ => none) "Pet" 0⟩
      ⟨[]⟩ "Pet" [("kind", "cat")]).1 = .error .keyError :=
  (invalidate_missing_field
    ⟨ConjSchemes.updF (fun _ => none) "Pet" {([] : List String), ["status"]},
     ConjSchemes.updF (fun _ => none) "Pet" 0⟩
    ⟨[]⟩ "Pet" [("kind", "cat")] {([] : List String), ["status"]}
    ⟨ConjSchemes.updF (fun _ => none) "Pet" {([] : List String), ["status"]},
     ConjSchemes.updF (fun _ => none) "Pet" 0⟩
    rfl ⟨["status"], by decide, "status", by decide, rfl⟩).1

/-- C5: the scheme set returned by `schemes` always contains the empty
scheme, for any store contents and also immediately after `clear`, given
the local-cache well-formedness maintained by every loading path. -/
theorem schemes_contain_empty (cs : ConjSchemes) (st : Store) (model : String)
    (h : LocalsWF cs) :
    [] ∈ (ConjSchemes.schemes cs st model).1 ∧
    [] ∈ (ConjSchemes.schemes cs (ConjSchemes.clear cs st model).2 model).1 :=
  ⟨empty_mem_schemes cs st model h, empty_mem_schemes cs _ model h⟩

/-- C5 witness: a fresh registry over an empty store, before and after
`clear`. -/
theorem schemes_contain_empty_witness :
    [] ∈ (ConjSchemes.schemes ConjSchemes.init ⟨[]⟩ "Order").1 ∧
    [] ∈ (ConjSchemes.schemes ConjSchemes.init
      (ConjSchemes.clear ConjSchemes.init ⟨[]⟩ "Order").2 "Order").1 :=
  schemes_contain_empty ConjSchemes.init ⟨[]⟩ "Order" (fun _ _ h => nomatch h)

/-- C10: `clear` mutates only the store (it deletes the store-side
scheme set and increments the store-side version); the local maps are
returned unchanged, so a subsequent `schemes` read in the same process
still returns the previously cached set. -/
theorem clear_frame (cs : ConjSchemes) (st : Store) (model : String) :
    (ConjSchemes.clear cs st model).1 = cs ∧
    (ConjSchemes.clear cs st model).2.get (ConjSchemes.get_lookup_key model) = none ∧
    (ConjSchemes.clear cs st model).2.getInt (ConjSchemes.get_version_key model) =
      st.getInt (ConjSchemes.get_version_key model) + 1 ∧
    ∀ s, cs.locals model = some s →
      (ConjSchemes.schemes cs (ConjSchemes.clear cs st model).2 model).1 = s := by
  refine ⟨rfl, ?_, ?_, ?_⟩
  · show ((st.del1 (ConjSchemes.get_lookup_key model)).incr
      (ConjSchemes.get_version_key model)).get (ConjSchemes.get_lookup_key model) = none
    unfold Store.incr
    rw [Store.get_put, if_neg (lookup_ne_vkey_same model), Store.get_del1, if_pos rfl]
  · show ((st.del1 (ConjSchemes.get_lookup_key model)).incr
      (ConjSchemes.get_version_key model)).getInt (ConjSchemes.get_version_key model) =
      st.getInt (ConjSchemes.get_version_key model) + 1
    rw [Store.getInt_incr_self,
      Store.getInt_del1_ne st (ConjSchemes.get_lookup_key model)
        (ConjSchemes.get_version_key model) (Ne.symm (lookup_ne_vkey_same model))]
  · intro s hs
    unfold ConjSchemes.schemes
    rw [hs]

/-- C10 witness: with a cached entry for `Order`, `clear` leaves the
local cache readable and unchanged. -/
theorem clear_frame_witness :
    (ConjSchemes.schemes
      ⟨ConjSchemes.updF (fun _ => none) "Order" {([] : List String)}, fun _ => none⟩
      (ConjSchemes.clear
        ⟨ConjSchemes.updF (fun _ => none) "Order" {([] : List String)}, fun _ => none⟩
        ⟨[]⟩ "Order").2 "Order").1 = {([] : List String)} :=
  (clear_frame
    ⟨ConjSchemes.updF (fun _ => none) "Order" {([] : List String)}, fun _ => none⟩
    ⟨[]⟩ "Order").2.2.2 {([] : List String)} rfl

/-- C3: the retry loop of `invalidate_from_dict` runs at most 3
attempts; an attempt whose transaction-read version equals the local
version returns success immediately (first, second or third attempt),
and when all three attempts observe a mismatch the call raises the hard
`RuntimeError` after exactly the third attempt instead of looping. -/
theorem invalidate_retry_bound :
    (∀ (interf : Nat → Store → Store) (cs : ConjSchemes) (st : Store)
       (model : String) (values : List (String × String))
       (S : Finset (List String)) (cs0 : ConjSchemes),
      ConjSchemes.schemes cs st model = (S, cs0) →
      invalidate_from_dict interf cs st model values =
        invalidate_loop interf model values (ConjSchemes.get_version_key model) 3 cs0 S st)
    ∧ (∀ (interf : Nat → Store → Store) (model : String)
        (values : List (String × String)) (vk : String) (cs : ConjSchemes)
        (S : Finset (List String)) (st : Store) (c : ConjSchemes) (s2 : Store),
      invalidate_attempt model values vk cs S (interf 2 st) = .ok (.inl (c, s2)) →
      invalidate_loop interf model values vk 3 cs S st = (.ok (), c, s2))
    ∧ (∀ (interf : Nat → Store → Store) (model : String)
        (values : List (String × String)) (vk : String) (cs : ConjSchemes)
        (S : Finset (List String)) (st : Store) (c1 : ConjSchemes)
        (S1 : Finset (List String)) (s1 : Store) (c : ConjSchemes) (s2 : Store),
      invalidate_attempt model values vk cs S (interf 2 st) = .ok (.inr (c1, S1, s1)) →
      invalidate_attempt model values vk c1 S1 (interf 1 s1) = .ok (.inl (c, s2)) →
      invalidate_loop interf model values vk 3 cs S st = (.ok (), c, s2))
    ∧ (∀ (interf : Nat → Store → Store) (model : String)
        (values : List (String × String)) (vk : String) (cs : ConjSchemes)
        (S : Finset (List String)) (st : Store) (c1 : ConjSchemes)
        (S1 : Finset (List String)) (s1 : Store) (c2 : ConjSchemes)
        (S2 : Finset (List String)) (s2 : Store) (c : ConjSchemes) (s3 : Store),
      invalidate_attempt model values vk cs S (interf 2 st) = .ok (.inr (c1, S1, s1)) →
      invalidate_attempt model values vk c1 S1 (interf 1 s1) = .ok (.inr (c2, S2, s2)) →
      invalidate_attempt model values vk c2 S2 (interf 0 s2) = .ok (.inl (c, s3)) →
      invalidate_loop interf model values vk 3 cs S st = (.ok (), c, s3))
    ∧ (∀ (interf : Nat → Store → Store) (model : String)
        (values : List (String × String)) (vk : String) (cs : ConjSchemes)
        (S : Finset (List String)) (st : Store) (c1 : ConjSchemes)
        (S1 : Finset (List String)) (s1 : Store) (c2 : ConjSchemes)
        (S2 : Finset (List String)) (s2 : Store) (c3 : ConjSchemes)
        (S3 : Finset (List String)) (s3 : Store),
      invalidate_attempt model values vk cs S (interf 2 st) = .ok (.inr (c1, S1, s1)) →
      invalidate_attempt model values vk c1 S1 (interf 1 s1) = .ok (.inr (c2, S2, s2)) →
      invalidate_attempt model values vk c2 S2 (interf 0 s2) = .ok (.inr (c3, S3, s3)) →
      invalidate_loop interf model values vk 3 cs S st =
        (.error .runtimeError, c3, s3)) := by
  refine ⟨?_, ?_, ?_, ?_, ?_⟩
  · intro interf cs st model values S cs0 hS
    exact invalidate_from_dict_eq interf cs st model values S cs0 hS
  · intro interf model values vk cs S st c s2 h1
    rw [invalidate_loop_inl interf model values vk 2 cs S st c s2 h1]
  · intro interf model values vk cs S st c1 S1 s1 c s2 h1 h2
    rw [invalidate_loop_inr interf model values vk 2 cs S st c1 S1 s1 h1,
      invalidate_loop_inl interf model values vk 1 c1 S1 s1 c s2 h2]
  · intro interf model values vk cs S st c1 S1 s1 c2 S2 s2 c s3 h1 h2 h3
    rw [invalidate_loop_inr interf model values vk 2 cs S st c1 S1 s1 h1,
      invalidate_loop_inr interf model values vk 1 c1 S1 s1 c2 S2 s2 h2,
      invalidate_loop_inl interf model values vk 0 c2 S2 s2 c s3 h3]
  · intro interf model values vk cs S st c1 S1 s1 c2 S2 s2 c3 S3 s3 h1 h2 h3
    rw [invalidate_loop_inr interf model values vk 2 cs S st c1 S1 s1 h1,
      invalidate_loop_inr interf model values vk 1 c1 S1 s1 c2 S2 s2 h2,
      invalidate_loop_inr interf model values vk 0 c2 S2 s2 c3 S3 s3 h3,
      invalidate_loop_zero]

/-- C3 witness: under interference that bumps the store-side version
before every attempt, all three attempts mismatch and the call fails
with the hard error after exactly three attempts. -/
theorem invalidate_retry_bound_witness :
    (invalidate_loop (fun _ st => st.incr (ConjSchemes.get_version_key "Order"))
      "Order" [] (ConjSchemes.get_version_key "Order") 3
      ⟨ConjSchemes.updF (fun _ => none) "Order" {([] : List String)},
       ConjSchemes.updF (fun _ => none) "Order" 0⟩
      {([] : List String)} ⟨[]⟩).1 = Except.error Err.runtimeError := by
  have h := invalidate_retry_bound.2.2.2.2
    (fun _ st => st.incr (ConjSchemes.get_version_key "Order"))
    "Order" [] (ConjSchemes.get_version_key "Order")
    ⟨ConjSchemes.updF (fun _ => none) "Order" {([] : List String)},
     ConjSchemes.updF (fun _ => none) "Order" 0⟩
    {([] : List String)} ⟨[]⟩ _ _ _ _ _ _ _ _ _ rfl rfl rfl
  rw [h]

theorem ensure_known_none_eq (cs : ConjSchemes) (st : Store) (model : String)
    (S : Finset (List String)) (hl : cs.locals model = none) :
    ConjSchemes.ensure_known cs st model S =
      (if (S \ (ConjSchemes.load_schemes cs st model).1).Nonempty then
        ConjSchemes.ensure_known_write (ConjSchemes.load_schemes cs st model).2 st model
          (ConjSchemes.load_schemes cs st model).1 S
       else ((ConjSchemes.load_schemes cs st model).2, st)) := by
  unfold ConjSchemes.ensure_known
  rw [hl]

theorem ensure_known_some_eq (cs : ConjSchemes) (st : Store) (model : String)
    (S : Finset (List String)) (s : Finset (List String))
    (hl : cs.locals model = some s) :
    ConjSchemes.ensure_known cs st model S =
      (if (S \ s).Nonempty then
        (if (S \ (ConjSchemes.load_schemes cs st model).1).Nonempty then
          ConjSchemes.ensure_known_write (ConjSchemes.load_schemes cs st model).2 st model
            (ConjSchemes.load_schemes cs st model).1 S
         else ((ConjSchemes.load_schemes cs st model).2, st))
       else (cs, st)) := by
  unfold ConjSchemes.ensure_known
  rw [hl]

theorem ensure_known_write_locals (cs : ConjSchemes) (st : Store) (model : String)
    (sch S : Finset (List String)) :
    (ConjSchemes.ensure_known_write cs st model sch S).1.locals model = some (sch ∪ S) := by
  simp [ConjSchemes.ensure_known_write, ConjSchemes.updF]

theorem ensure_known_write_version (cs : ConjSchemes) (st : Store) (model : String)
    (sch S : Finset (List String)) :
    ConjSchemes.version (ConjSchemes.ensure_known_write cs st model sch S).1 model =
      ConjSchemes.version cs model + 1 := by
  simp [ConjSchemes.ensure_known_write, ConjSchemes.updF, ConjSchemes.version]

theorem ensure_known_write_getInt (cs : ConjSchemes) (st : Store) (model : String)
    (sch S : Finset (List String)) :
    (ConjSchemes.ensure_known_write cs st model sch S).2.getInt
      (ConjSchemes.get_version_key model) =
      st.getInt (ConjSchemes.get_version_key model) + 1 := by
  show ((st.incr (ConjSchemes.get_version_key model)).put (ConjSchemes.get_lookup_key model)
    _).getInt (ConjSchemes.get_version_key model) = _
  rw [Store.getInt_put_ne _ _ _ _ (Ne.symm (lookup_ne_vkey_same model)),
    Store.getInt_incr_self]

/-- C4 counterexample: the claim quantifies over every scheme set; for a
scheme set that is already known (here the always-present empty scheme,
over an empty store) the two calls perform zero version increments, not
exactly one. -/
theorem ensure_known_idempotent_counterexample :
    ((ConjSchemes.ensure_known
        (ConjSchemes.ensure_known ConjSchemes.init ⟨[]⟩ "Order" {([] : List String)}).1
        (ConjSchemes.ensure_known ConjSchemes.init ⟨[]⟩ "Order" {([] : List String)}).2
        "Order" {([] : List String)}).2.getInt (ConjSchemes.get_version_key "Order") =
      Store.getInt ⟨[]⟩ (ConjSchemes.get_version_key "Order")) ∧
    Store.getInt ⟨[]⟩ (ConjSchemes.get_version_key "Order") ≠
      Store.getInt ⟨[]⟩ (ConjSchemes.get_version_key "Order") + 1 := by
  exact ⟨rfl, by decide⟩

theorem schemes_eq_of_none (cs : ConjSchemes) (st : Store) (model : String)
    (h : cs.locals model = none) :
    ConjSchemes.schemes cs st model = ConjSchemes.load_schemes cs st model := by
  unfold ConjSchemes.schemes
  rw [h]

theorem schemes_eq_of_some (cs : ConjSchemes) (st : Store) (model : String)
    (s : Finset (List String)) (h : cs.locals model = some s) :
    ConjSchemes.schemes cs st model = (s, cs) := by
  unfold ConjSchemes.schemes
  rw [h]

theorem ensure_known_locals_absorb (cs : ConjSchemes) (st : Store) (model : String)
    (S : Finset (List String)) :
    ∃ s2, (ConjSchemes.ensure_known cs st model S).1.locals model = some s2 ∧
      S ⊆ s2 := by
  rcases hcl : cs.locals model with _ | s
  · rw [ensure_known_none_eq cs st model S hcl]
    split
    · exact ⟨_, ensure_known_write_locals _ _ model _ S, Finset.subset_union_right⟩
    · rename_i hne
      refine ⟨(ConjSchemes.load_schemes cs st model).1, ?_, ?_⟩
      · rw [load_schemes_locals, if_pos rfl]
      · exact Finset.sdiff_eq_empty_iff_subset.1 (Finset.not_nonempty_iff_eq_empty.1 hne)
  · rw [ensure_known_some_eq cs st model S s hcl]
    split
    · split
      · exact ⟨_, ensure_known_write_locals _ _ model _ S, Finset.subset_union_right⟩
      · rename_i hne
        refine ⟨(ConjSchemes.load_schemes cs st model).1, ?_, ?_⟩
        · rw [load_schemes_locals, if_pos rfl]
        · exact Finset.sdiff_eq_empty_iff_subset.1 (Finset.not_nonempty_iff_eq_empty.1 hne)
    · rename_i hne
      exact ⟨s, hcl,
        Finset.sdiff_eq_empty_iff_subset.1 (Finset.not_nonempty_iff_eq_empty.1 hne)⟩

/-- C4 (amended): for every registry state, store and scheme set,
calling `ensure_known` a second time with the same schemes is a no-op
(it returns the same registry and store, performing no store writes, so
the store-side scheme set stays identical to the state after the first
call); the store-side and local versions are incremented exactly once in
total when the first call registers a scheme unknown to both the local
cache and the store, and zero times when the schemes are already fully
known (the store is then untouched and the local counter is at most
refreshed to the store-side value, never incremented). -/
theorem ensure_known_idempotent (cs : ConjSchemes) (st : Store) (model : String)
    (S : Finset (List String)) :
    ConjSchemes.ensure_known (ConjSchemes.ensure_known cs st model S).1
        (ConjSchemes.ensure_known cs st model S).2 model S =
      ConjSchemes.ensure_known cs st model S ∧
    (¬ S ⊆ (ConjSchemes.schemes cs st model).1 →
      ¬ S ⊆ (ConjSchemes.load_schemes cs st model).1 →
      (ConjSchemes.ensure_known cs st model S).2.getInt
          (ConjSchemes.get_version_key model) =
        st.getInt (ConjSchemes.get_version_key model) + 1 ∧
      ConjSchemes.version (ConjSchemes.ensure_known cs st model S).1 model =
        st.getInt (ConjSchemes.get_version_key model) + 1) ∧
    ((S ⊆ (ConjSchemes.schemes cs st model).1 ∨
      S ⊆ (ConjSchemes.load_schemes cs st model).1) →
      (ConjSchemes.ensure_known cs st model S).2 = st ∧
      (ConjSchemes.version (ConjSchemes.ensure_known cs st model S).1 model =
          ConjSchemes.version cs model ∨
        ConjSchemes.version (ConjSchemes.ensure_known cs st model S).1 model =
          st.getInt (ConjSchemes.get_version_key model))) := by
  refine ⟨?_, ?_, ?_⟩
  · obtain ⟨s2, hs2, hsub⟩ := ensure_known_locals_absorb cs st model S
    rw [ensure_known_some_eq _ _ model S s2 hs2,
      if_neg (by rw [Finset.sdiff_eq_empty_iff_subset.2 hsub]; simp)]
  · intro h1 h2
    rcases hcl : cs.locals model with _ | s
    · rw [ensure_known_none_eq cs st model S hcl,
        if_pos (Finset.sdiff_nonempty.2 h2)]
      exact ⟨ensure_known_write_getInt _ _ model _ S,
        by rw [ensure_known_write_version, load_schemes_version]⟩
    · rw [schemes_eq_of_some cs st model s hcl] at h1
      rw [ensure_known_some_eq cs st model S s hcl,
        if_pos (Finset.sdiff_nonempty.2 h1),
        if_pos (Finset.sdiff_nonempty.2 h2)]
      exact ⟨ensure_known_write_getInt _ _ model _ S,
        by rw [ensure_known_write_version, load_schemes_version]⟩
  · intro h
    rcases hcl : cs.locals model with _ | s
    · rw [schemes_eq_of_none cs st model hcl] at h
      have hsub : S ⊆ (ConjSchemes.load_schemes cs st model).1 := by
        rcases h with h | h
        · exact h
        · exact h
      rw [ensure_known_none_eq cs st model S hcl,
        if_neg (by rw [Finset.sdiff_eq_empty_iff_subset.2 hsub]; simp)]
      exact ⟨rfl, Or.inr (load_schemes_version cs st model)⟩
    · by_cases hss : S ⊆ s
      · rw [ensure_known_some_eq cs st model S s hcl,
          if_neg (by rw [Finset.sdiff_eq_empty_iff_subset.2 hss]; simp)]
        exact ⟨rfl, Or.inl rfl⟩
      · have hsub : S ⊆ (ConjSchemes.load_schemes cs st model).1 := by
          rcases h with h | h
          · rw [schemes_eq_of_some cs st model s hcl] at h
            exact absurd h hss
          · exact h
        rw [ensure_known_some_eq cs st model S s hcl,
          if_pos (Finset.sdiff_nonempty.2 hss),
          if_neg (by rw [Finset.sdiff_eq_empty_iff_subset.2 hsub]; simp)]
        exact ⟨rfl, Or.inr (load_schemes_version cs st model)⟩

/-- C4 witness: registering the fresh scheme `(status,)` over an empty
store increments the store-side version from 0 to 1. -/
theorem ensure_known_idempotent_witness :
    (ConjSchemes.ensure_known ConjSchemes.init ⟨[]⟩ "Order"
      {(["status"] : List String)}).2.getInt (ConjSchemes.get_version_key "Order") =
      Store.getInt ⟨[]⟩ (ConjSchemes.get_version_key "Order") + 1 :=
  ((ensure_known_idempotent ConjSchemes.init ⟨[]⟩ "Order"
    {(["status"] : List String)}).2.1 (by decide) (by decide)).1

theorem ConjOK_of_forall (st : Store)
    (h : ∀ p ∈ st.entries, ∀ q ∈ rvalSet p.2, ¬ ("schemes:".data <+: q.data)) :
    ConjOK st := by
  intro k q _ hq hpre
  unfold Store.smembers at hq
  rcases hm : st.get k with _ | v
  · rw [hm] at hq
    exact absurd hq (by simp)
  · rw [hm] at hq
    unfold Store.get at hm
    rcases hf : st.entries.find? (fun p => p.1 == k) with _ | p0
    · rw [hf] at hm
      cases hm
    · rw [hf] at hm
      simp only [Option.map_some', Option.some.injEq] at hm
      have hmem := List.mem_of_find?_eq_some hf
      refine h p0 hmem q ?_ hpre
      rw [hm]
      rcases v with n | sets | b
      · exact absurd hq (by simp)
      · exact hq
      · exact absurd hq (by simp)

theorem conj_pre_of_keysMatching (st : Store) (model k : String)
    (hk : k ∈ st.keysMatching ("conj:" ++ model ++ ":")) :
    "conj:".data <+: k.data := by
  have h2 := ((Store.mem_keysMatching st _ k).1 hk).2
  refine List.IsPrefix.trans ⟨(model ++ ":").data, ?_⟩ h2
  simp [String.data_append]

theorem conj_pre_ne_vkey (k m : String) (h : "conj:".data <+: k.data) :
    k ≠ ConjSchemes.get_version_key m := by
  intro he
  apply not_conj_pre_schemes (m ++ ":version")
  rw [show "schemes:" ++ (m ++ ":version") = ConjSchemes.get_version_key m from by
    simp [ConjSchemes.get_version_key, String.append_assoc], ← he]
  exact h

theorem conj_pre_ne_lookup (k m : String) (h : "conj:".data <+: k.data) :
    k ≠ ConjSchemes.get_lookup_key m := by
  intro he
  apply not_conj_pre_schemes m
  rw [show "schemes:" ++ m = ConjSchemes.get_lookup_key m from rfl, ← he]
  exact h

theorem schemes_pre_lookup (m : String) :
    "schemes:".data <+: (ConjSchemes.get_lookup_key m).data := by
  refine ⟨m.data, ?_⟩
  simp [ConjSchemes.get_lookup_key, String.data_append]

theorem cache_key_ne_vkey (st : Store) (model q : String)
    (hok : ConjOK st) (hq : q ∈ st.sunion (st.keysMatching ("conj:" ++ model ++ ":"))) :
    ∀ m2, q ≠ ConjSchemes.get_version_key m2 ∧ q ≠ ConjSchemes.get_lookup_key m2 := by
  obtain ⟨k0, hk0, hqm⟩ := (Store.mem_sunion st _ q).1 hq
  have hnp := hok k0 q (conj_pre_of_keysMatching st model k0 hk0) hqm
  intro m2
  constructor
  · intro he
    exact hnp (he ▸ schemes_pre_vkey m2)
  · intro he
    exact hnp (he ▸ schemes_pre_lookup m2)

/-- C6: when conjunction keys with the entity type's `conj:` pattern
exist in the store, `invalidate_model` deletes all of them, deletes the
union of the cache keys they contained, deletes the entity type's
store-side scheme set, bumps the entity type's store-side version by
one, and leaves the process-local registry untouched. -/
theorem invalidate_model_wipes (cs : ConjSchemes) (st : Store) (model : String)
    (hok : ConjOK st)
    (hne : st.keysMatching ("conj:" ++ model ++ ":") ≠ []) :
    (invalidate_model cs st model).1 = cs ∧
    (∀ k ∈ st.keysMatching ("conj:" ++ model ++ ":"),
      (invalidate_model cs st model).2.get k = none) ∧
    (∀ q ∈ st.sunion (st.keysMatching ("conj:" ++ model ++ ":")),
      (invalidate_model cs st model).2.get q = none) ∧
    (invalidate_model cs st model).2.get (ConjSchemes.get_lookup_key model) = none ∧
    (invalidate_model cs st model).2.getInt (ConjSchemes.get_version_key model) =
      st.getInt (ConjSchemes.get_version_key model) + 1 := by
  have heq : invalidate_model cs st model =
      (cs, (((st.delSet (st.sunion (st.keysMatching ("conj:" ++ model ++ ":")))).del
          (st.keysMatching ("conj:" ++ model ++ ":"))).del1
            (ConjSchemes.get_lookup_key model)).incr
          (ConjSchemes.get_version_key model)) := by
    simp only [invalidate_model, ConjSchemes.clear]
    rw [if_pos hne]
  rw [heq]
  refine ⟨rfl, ?_, ?_, ?_, ?_⟩
  · intro k hk
    have hpre := conj_pre_of_keysMatching st model k hk
    unfold Store.incr
    rw [Store.get_put, if_neg (conj_pre_ne_vkey k model hpre),
      Store.get_del1, if_neg (conj_pre_ne_lookup k model hpre),
      Store.get_del, if_pos hk]
  · intro q hq
    have hne2 := cache_key_ne_vkey st model q hok hq
    unfold Store.incr
    rw [Store.get_put, if_neg (hne2 model).1, Store.get_del1, if_neg (hne2 model).2,
      Store.get_del]
    split
    · rfl
    · rw [Store.get_delSet, if_pos hq]
  · unfold Store.incr
    rw [Store.get_put, if_neg (lookup_ne_vkey_same model), Store.get_del1, if_pos rfl]
  · rw [Store.getInt_incr_self,
      Store.getInt_del1_ne _ _ _ (Ne.symm (lookup_ne_vkey_same model)),
      Store.getInt_del_notmem _ _ _
        (fun hmem => conj_pre_ne_vkey _ model (conj_pre_of_keysMatching st model _ hmem) rfl),
      Store.getInt_delSet_notmem]
    intro hmem
    exact ((cache_key_ne_vkey st model _ hok hmem) model).1 rfl

/-- C6 witness: the spec scenario with `conj:Order:`,
`conj:Order:status=paid`, `conj:Order:status=shipped` tagging
`q1,q2,q3`: all conj keys and cache keys are deleted and the version
goes from 4 to 5. -/
theorem invalidate_model_wipes_witness :
    ((invalidate_model ConjSchemes.init
      ⟨[("conj:Order:", RVal.set {"q1"}), ("conj:Order:status=paid", RVal.set {"q2"}),
        ("conj:Order:status=shipped", RVal.set {"q3"}), ("q1", RVal.blob "a"),
        ("q2", RVal.blob "b"), ("q3", RVal.blob "c"),
        ("schemes:Order", RVal.set {",status"}), ("schemes:Order:version", RVal.int 4)]⟩
      "Order").2.get "q2" = none) ∧
    ((invalidate_model ConjSchemes.init
      ⟨[("conj:Order:", RVal.set {"q1"}), ("conj:Order:status=paid", RVal.set {"q2"}),
        ("conj:Order:status=shipped", RVal.set {"q3"}), ("q1", RVal.blob "a"),
        ("q2", RVal.blob "b"), ("q3", RVal.blob "c"),
        ("schemes:Order", RVal.set {",status"}), ("schemes:Order:version", RVal.int 4)]⟩
      "Order").2.getInt (ConjSchemes.get_version_key "Order") = 4 + 1) := by
  have h := invalidate_model_wipes ConjSchemes.init
    ⟨[("conj:Order:", RVal.set {"q1"}), ("conj:Order:status=paid", RVal.set {"q2"}),
      ("conj:Order:status=shipped", RVal.set {"q3"}), ("q1", RVal.blob "a"),
      ("q2", RVal.blob "b"), ("q3", RVal.blob "c"),
      ("schemes:Order", RVal.set {",status"}), ("schemes:Order:version", RVal.int 4)]⟩
    "Order" (ConjOK_of_forall _ (by decide)) (by decide)
  exact ⟨h.2.2.1 "q2" (by decide), h.2.2.2.2⟩

theorem pairLe_iff (a b : String × String) :
    pairLe a b = true ↔ a.1 < b.1 ∨ (a.1 = b.1 ∧ a.2 ≤ b.2) := by
  simp [pairLe, Bool.or_eq_true, Bool.and_eq_true, decide_eq_true_eq, beq_iff_eq]

theorem pairLe_trans (a b c : String × String) (h1 : pairLe a b) (h2 : pairLe b c) :
    pairLe a c := by
  rw [pairLe_iff] at h1 h2 ⊢
  rcases h1 with h1 | ⟨h1, h1v⟩
  · rcases h2 with h2 | ⟨h2, _⟩
    · exact Or.inl (lt_trans h1 h2)
    · exact Or.inl (h2 ▸ h1)
  · rcases h2 with h2 | ⟨h2, h2v⟩
    · exact Or.inl (h1 ▸ h2)
    · exact Or.inr ⟨h1.trans h2, le_trans h1v h2v⟩

theorem pairLe_total (a b : String × String) : pairLe a b || pairLe b a := by
  rw [Bool.or_eq_true, pairLe_iff, pairLe_iff]
  rcases lt_trichotomy a.1 b.1 with h | h | h
  · exact Or.inl (Or.inl h)
  · rcases le_total a.2 b.2 with hv | hv
    · exact Or.inl (Or.inr ⟨h, hv⟩)
    · exact Or.inr (Or.inr ⟨h.symm, hv⟩)
  · exact Or.inr (Or.inl h)

/-- C8: `conj_cache_key` produces `conj:<model>:` followed by
`field=value` pairs joined by `&` arranged in field-name-sorted order,
and `conj_cache_key_from_scheme` produces the same shape with the pairs
in the scheme's declared field order. -/
theorem conj_key_format :
    (∀ (model : String) (conj : List (String × String)),
      ∃ l : List (String × String), l.Perm conj ∧
        l.Pairwise (fun a b => a.1 ≤ b.1) ∧
        conj_cache_key model conj = "conj:" ++ model ++ ":" ++
          String.intercalate "&" (l.map (fun p => p.1 ++ "=" ++ p.2)))
    ∧ (∀ (model : String) (scheme : List String) (values : List (String × String)),
      (∀ f ∈ scheme, (lookupField values f).isSome) →
      conj_cache_key_from_scheme model scheme values =
        some ("conj:" ++ model ++ ":" ++ String.intercalate "&"
          (scheme.map (fun f => f ++ "=" ++ (lookupField values f).getD "")))) := by
  constructor
  · intro model conj
    refine ⟨conj.mergeSort pairLe, List.mergeSort_perm conj pairLe, ?_, rfl⟩
    have hs := List.sorted_mergeSort pairLe_trans pairLe_total conj
    refine hs.imp ?_
    intro a b hab
    rcases (pairLe_iff a b).1 hab with h | ⟨h, _⟩
    · exact le_of_lt h
    · exact le_of_eq h
  · intro model scheme values hall
    unfold conj_cache_key_from_scheme
    rw [mapOpt_of_isSome (fun f => (lookupField values f).map (fun v => f ++ "=" ++ v))
      "" scheme ?_]
    · have hmap : scheme.map
          (fun a => ((lookupField values a).map (fun v => a ++ "=" ++ v)).getD "") =
          scheme.map (fun f => f ++ "=" ++ (lookupField values f).getD "") := by
        refine List.map_congr_left ?_
        intro f hf
        have hsf := hall f hf
        rcases hl : lookupField values f with _ | v
        · rw [hl] at hsf
          cases hsf
        · simp
      simp only [Option.map_some']
      rw [hmap]
    · intro f hf
      have hsf := hall f hf
      rcases hl : lookupField values f with _ | v
      · rw [hl] at hsf
        cases hsf
      · simp [hl]

/-- C8 witness: one scheme-ordered key evaluated concretely. -/
theorem conj_key_format_witness :
    conj_cache_key_from_scheme "Order" ["status"] [("status", "paid")] =
      some ("conj:" ++ "Order" ++ ":" ++ String.intercalate "&"
        (["status"].map (fun f => f ++ "=" ++
          (lookupField [("status", "paid")] f).getD ""))) :=
  conj_key_format.2 "Order" ["status"] [("status", "paid")] (by decide)

theorem list_intercalate_cons (sep : List α) (x : List α) (xs : List (List α)) :
    List.intercalate sep (x :: xs) = x ++ (xs.map (fun y => sep ++ y)).flatten := by
  induction xs generalizing x with
  | nil => simp [List.intercalate]
  | cons y ys ih =>
    rw [List.intercalate, List.intersperse_cons_cons, List.flatten_cons, List.flatten_cons]
    have hy := ih y
    rw [List.intercalate] at hy
    rw [hy]
    simp [List.append_assoc]

theorem intercalate_go_data (sep : String) (as : List String) : ∀ (acc : String),
    (String.intercalate.go acc sep as).data =
      acc.data ++ (as.map (fun a => sep.data ++ a.data)).flatten := by
  induction as with
  | nil =>
    intro acc
    simp [String.intercalate.go]
  | cons a t ih =>
    intro acc
    rw [String.intercalate.go, ih]
    simp [List.append_assoc]

theorem intercalate_data (sep : String) (l : List String) :
    (String.intercalate sep l).data = List.intercalate sep.data (l.map String.data) := by
  cases l with
  | nil => rfl
  | cons a as =>
    rw [String.intercalate, intercalate_go_data, List.map_cons, list_intercalate_cons]
    rw [List.map_map]
    rfl

/-- C9: scheme serialization round-trips on non-empty schemes whose
fields contain no comma; the empty scheme does not round-trip to itself
but to the one-element tuple containing the empty string. -/
theorem serialize_scheme_roundtrip :
    (∀ s : List String, s ≠ [] → (∀ f ∈ s, ',' ∉ f.data) →
      deserialize_scheme (serialize_scheme s) = s) ∧
    deserialize_scheme (serialize_scheme []) = [""] := by
  constructor
  · intro s hne hc
    unfold deserialize_scheme serialize_scheme
    rw [String.split_of_valid]
    have h1 : (String.intercalate "," s).data =
        List.intercalate [','] (s.map String.data) := intercalate_data "," s
    rw [show (String.intercalate "," s).1 = (String.intercalate "," s).data from rfl, h1]
    have hx : ∀ l ∈ s.map String.data, ',' ∉ l := by
      intro l hl
      obtain ⟨f, hf, rfl⟩ := List.mem_map.1 hl
      exact hc f hf
    have hls : s.map String.data ≠ [] := by simpa using hne
    have h2 := List.splitOn_intercalate (s.map String.data) ',' hx hls
    rw [show (List.splitOnP (fun c => c == ',')
        (List.intercalate [','] (s.map String.data))) =
      (List.intercalate [','] (s.map String.data)).splitOn ',' from rfl, h2]
    rw [List.map_map]
    exact List.map_id'' (fun x => rfl) s
  · unfold deserialize_scheme serialize_scheme
    rw [show String.intercalate "," [] = "" from rfl, String.split_of_valid]
    rfl

/-- C9 witness: a two-field scheme round-trips. -/
theorem serialize_scheme_roundtrip_witness :
    deserialize_scheme (serialize_scheme ["status", "id"]) = ["status", "id"] :=
  serialize_scheme_roundtrip.1 ["status", "id"] (by decide) (by decide)

theorem Store.smembers_del1 (st : Store) (k k2 : String) :
    (st.del1 k).smembers k2 = if k2 = k then ∅ else st.smembers k2 := by
  unfold Store.smembers
  rw [Store.get_del1]
  by_cases h : k2 = k
  · rw [if_pos h, if_pos h]
  · rw [if_neg h, if_neg h]

theorem Store.smembers_delSet (st : Store) (ks : Finset String) (k2 : String) :
    (st.delSet ks).smembers k2 = if k2 ∈ ks then ∅ else st.smembers k2 := by
  unfold Store.smembers
  rw [Store.get_delSet]
  by_cases h : k2 ∈ ks
  · rw [if_pos h, if_pos h]
  · rw [if_neg h, if_neg h]

theorem Store.smembers_del (st : Store) (ks : List String) (k2 : String) :
    (st.del ks).smembers k2 = if k2 ∈ ks then ∅ else st.smembers k2 := by
  unfold Store.smembers
  rw [Store.get_del]
  by_cases h : k2 ∈ ks
  · rw [if_pos h, if_pos h]
  · rw [if_neg h, if_neg h]

theorem Store.smembers_put (st : Store) (k : String) (v : RVal) (k2 : String) :
    (st.put k v).smembers k2 = if k2 = k then rvalSet v else st.smembers k2 := by
  unfold Store.smembers
  rw [Store.get_put]
  by_cases h : k2 = k
  · rw [if_pos h, if_pos h]
    rcases v with n | sets | b <;> rfl
  · rw [if_neg h, if_neg h]

theorem ConjOK.del1 (st : Store) (k : String) (hok : ConjOK st) :
    ConjOK (st.del1 k) := by
  intro k2 q hpre hq
  rw [Store.smembers_del1] at hq
  split at hq
  · exact absurd hq (by simp)
  · exact hok k2 q hpre hq

theorem ConjOK.delSet (st : Store) (ks : Finset String) (hok : ConjOK st) :
    ConjOK (st.delSet ks) := by
  intro k2 q hpre hq
  rw [Store.smembers_delSet] at hq
  split at hq
  · exact absurd hq (by simp)
  · exact hok k2 q hpre hq

theorem ConjOK.del (st : Store) (ks : List String) (hok : ConjOK st) :
    ConjOK (st.del ks) := by
  intro k2 q hpre hq
  rw [Store.smembers_del] at hq
  split at hq
  · exact absurd hq (by simp)
  · exact hok k2 q hpre hq

theorem ConjOK.incr (st : Store) (k : String) (hok : ConjOK st) :
    ConjOK (st.incr k) := by
  intro k2 q hpre hq
  rw [show st.incr k = st.put k (RVal.int (st.getInt k + 1)) from rfl,
    Store.smembers_put] at hq
  split at hq
  · exact absurd hq (by simp [rvalSet])
  · exact hok k2 q hpre hq

theorem ConjOK.put_not_conj (st : Store) (k : String) (v : RVal)
    (hk : ¬ ("conj:".data <+: k.data)) (hok : ConjOK st) :
    ConjOK (st.put k v) := by
  intro k2 q hpre hq
  rw [Store.smembers_put] at hq
  split at hq
  · rename_i he
    exact absurd (he ▸ hpre) hk
  · exact hok k2 q hpre hq

theorem vkey_notin_cacheKeys (st : Store) (ks : Finset String) (m2 : String)
    (hok : ConjOK st) (hcs : ∀ k ∈ ks, "conj:".data <+: k.data) :
    ConjSchemes.get_version_key m2 ∉ st.sunionF ks := by
  intro hmem
  obtain ⟨k, hk, hq⟩ := (Store.mem_sunionF st ks _).1 hmem
  exact hok k _ (hcs k hk) hq (schemes_pre_vkey m2)

theorem vkey_notin_conjKeys (ks : Finset String) (m2 : String)
    (hcs : ∀ k ∈ ks, "conj:".data <+: k.data) :
    ConjSchemes.get_version_key m2 ∉ ks := by
  intro hmem
  exact conj_pre_ne_vkey _ m2 (hcs _ hmem) rfl

theorem attemptStore_conjOK (st : Store) (ks : Finset String) (hok : ConjOK st) :
    ConjOK (attemptStore st ks) := by
  unfold attemptStore
  split
  · exact ConjOK.delSet _ _ (ConjOK.delSet st ks hok)
  · exact ConjOK.delSet st ks hok

theorem attemptStore_getInt (st : Store) (ks : Finset String) (m2 : String)
    (hok : ConjOK st) (hcs : ∀ k ∈ ks, "conj:".data <+: k.data) :
    (attemptStore st ks).getInt (ConjSchemes.get_version_key m2) =
      st.getInt (ConjSchemes.get_version_key m2) := by
  unfold attemptStore
  split
  · rw [Store.getInt_delSet_notmem _ _ _ (vkey_notin_cacheKeys st ks m2 hok hcs),
      Store.getInt_delSet_notmem _ _ _ (vkey_notin_conjKeys ks m2 hcs)]
  · rw [Store.getInt_delSet_notmem _ _ _ (vkey_notin_conjKeys ks m2 hcs)]

theorem conjs_keys_of_conj_pre (m : String) (S : Finset (List String))
    (vs : List (String × String)) (ks : Finset String)
    (h : conjs_keys_of m S vs = some ks) :
    ∀ k ∈ ks, "conj:".data <+: k.data := by
  intro k hk
  obtain ⟨sc, _, hsc⟩ := mem_conjs_keys_of m S vs ks k h hk
  obtain ⟨rest, rfl⟩ := conj_key_shape m sc vs k hsc
  exact conj_pre_conj_key m rest

theorem invalidate_loop_store (m : String) (vs : List (String × String)) (vk : String)
    (n : Nat) (cs : ConjSchemes) (S : Finset (List String)) (st : Store)
    (hok : ConjOK st) :
    ConjOK ((invalidate_loop idInterf m vs vk n cs S st).2.2) ∧
    ∀ m2 : String, st.getInt (ConjSchemes.get_version_key m2) ≤
      ((invalidate_loop idInterf m vs vk n cs S st).2.2).getInt
        (ConjSchemes.get_version_key m2) := by
  induction n generalizing cs S st with
  | zero => exact ⟨hok, fun m2 => le_refl _⟩
  | succ n ih =>
    rcases hc : conjs_keys_of m S vs with _ | ks
    · rw [invalidate_loop_err idInterf m vs vk n cs S st .keyError
        (invalidate_attempt_err m vs vk cs S (idInterf n st) hc)]
      exact ⟨hok, fun m2 => le_refl _⟩
    · have hcs := conjs_keys_of_conj_pre m S vs ks hc
      by_cases hv : (idInterf n st).getInt vk = ConjSchemes.version cs m
      · rw [invalidate_loop_inl idInterf m vs vk n cs S st cs
          (attemptStore (idInterf n st) ks)
          (by rw [invalidate_attempt_eq m vs vk cs S (idInterf n st) ks hc, if_pos hv])]
        exact ⟨attemptStore_conjOK st ks hok,
          fun m2 => le_of_eq (attemptStore_getInt st ks m2 hok hcs).symm⟩
      · rw [invalidate_loop_inr idInterf m vs vk n cs S st _ _ _
          (by rw [invalidate_attempt_eq m vs vk cs S (idInterf n st) ks hc, if_neg hv])]
        have hres := ih
          (ConjSchemes.load_schemes cs (attemptStore (idInterf n st) ks) m).2
          (ConjSchemes.load_schemes cs (attemptStore (idInterf n st) ks) m).1
          (attemptStore (idInterf n st) ks) (attemptStore_conjOK st ks hok)
        exact ⟨hres.1, fun m2 =>
          le_trans (le_of_eq (attemptStore_getInt st ks m2 hok hcs).symm) (hres.2 m2)⟩

theorem ensure_known_store (cs : ConjSchemes) (st : Store) (model : String)
    (S : Finset (List String)) :
    (ConjSchemes.ensure_known cs st model S).2 = st ∨
    ∃ v, (ConjSchemes.ensure_known cs st model S).2 =
      (st.incr (ConjSchemes.get_version_key model)).put
        (ConjSchemes.get_lookup_key model) (RVal.set v) := by
  rcases hcl : cs.locals model with _ | s
  · rw [ensure_known_none_eq cs st model S hcl]
    split
    · right
      exact ⟨_, rfl⟩
    · left
      rfl
  · rw [ensure_known_some_eq cs st model S s hcl]
    split
    · split
      · right
        exact ⟨_, rfl⟩
      · left
        rfl
    · left
      rfl

theorem step_store (cs : ConjSchemes) (st : Store) (op : Op) (hop : OpOK op)
    (hok : ConjOK st) :
    ConjOK (step (cs, st) op).2 ∧
    ∀ m2 : String, st.getInt (ConjSchemes.get_version_key m2) ≤
      (step (cs, st) op).2.getInt (ConjSchemes.get_version_key m2) := by
  cases op with
  | ensureKnown T ns =>
    show ConjOK (ConjSchemes.ensure_known cs st T ns).2 ∧
      ∀ m2 : String, st.getInt (ConjSchemes.get_version_key m2) ≤
        (ConjSchemes.ensure_known cs st T ns).2.getInt (ConjSchemes.get_version_key m2)
    rcases ensure_known_store cs st T ns with h | ⟨v, h⟩
    · rw [h]
      exact ⟨hok, fun m2 => le_refl _⟩
    · rw [h]
      constructor
      · exact ConjOK.put_not_conj _ _ _ (not_conj_pre_schemes T) (ConjOK.incr st _ hok)
      · intro m2
        rw [Store.getInt_put_ne _ _ _ _ (Ne.symm (lookup_ne_vkey T m2 hop))]
        exact Store.getInt_incr_ge st _ _
  | loadSchemes T => exact ⟨hok, fun m2 => le_refl _⟩
  | getSchemes T => exact ⟨hok, fun m2 => le_refl _⟩
  | clearOp T =>
    show ConjOK ((st.del1 (ConjSchemes.get_lookup_key T)).incr
        (ConjSchemes.get_version_key T)) ∧
      ∀ m2 : String, st.getInt (ConjSchemes.get_version_key m2) ≤
        ((st.del1 (ConjSchemes.get_lookup_key T)).incr
          (ConjSchemes.get_version_key T)).getInt (ConjSchemes.get_version_key m2)
    constructor
    · exact ConjOK.incr _ _ (ConjOK.del1 st _ hok)
    · intro m2
      calc st.getInt (ConjSchemes.get_version_key m2)
          = (st.del1 (ConjSchemes.get_lookup_key T)).getInt
              (ConjSchemes.get_version_key m2) :=
            (Store.getInt_del1_ne st _ _ (Ne.symm (lookup_ne_vkey T m2 hop))).symm
        _ ≤ _ := Store.getInt_incr_ge _ _ _
  | invalidateModel T =>
    show ConjOK (invalidate_model cs st T).2 ∧
      ∀ m2 : String, st.getInt (ConjSchemes.get_version_key m2) ≤
        (invalidate_model cs st T).2.getInt (ConjSchemes.get_version_key m2)
    by_cases hne : st.keysMatching ("conj:" ++ T ++ ":") ≠ []
    · have heq : (invalidate_model cs st T).2 =
          ((((st.delSet (st.sunion (st.keysMatching ("conj:" ++ T ++ ":")))).del
            (st.keysMatching ("conj:" ++ T ++ ":"))).del1
              (ConjSchemes.get_lookup_key T)).incr (ConjSchemes.get_version_key T)) := by
        show (invalidate_model cs st T).2 = _
        simp only [invalidate_model, ConjSchemes.clear]
        rw [if_pos hne]
      rw [heq]
      constructor
      · exact ConjOK.incr _ _ (ConjOK.del1 _ _ (ConjOK.del _ _
          (ConjOK.delSet _ _ hok)))
      · intro m2
        have h1 : ConjSchemes.get_version_key m2 ∉
            st.sunion (st.keysMatching ("conj:" ++ T ++ ":")) := by
          intro hmem
          exact (cache_key_ne_vkey st T _ hok hmem m2).1 rfl
        have h2 : ConjSchemes.get_version_key m2 ∉
            st.keysMatching ("conj:" ++ T ++ ":") := by
          intro hmem
          exact conj_pre_ne_vkey _ m2 (conj_pre_of_keysMatching st T _ hmem) rfl
        calc st.getInt (ConjSchemes.get_version_key m2)
            = _ := (Store.getInt_delSet_notmem st _ _ h1).symm
          _ = _ := (Store.getInt_del_notmem _ _ _ h2).symm
          _ = _ := (Store.getInt_del1_ne _ _ _ (Ne.symm (lookup_ne_vkey T m2 hop))).symm
          _ ≤ _ := Store.getInt_incr_ge _ _ _
    · have heq : (invalidate_model cs st T).2 =
          ((st.del1 (ConjSchemes.get_lookup_key T)).incr
            (ConjSchemes.get_version_key T)) := by
        show (invalidate_model cs st T).2 = _
        simp only [invalidate_model, ConjSchemes.clear]
        rw [if_neg hne]
      rw [heq]
      constructor
      · exact ConjOK.incr _ _ (ConjOK.del1 st _ hok)
      · intro m2
        calc st.getInt (ConjSchemes.get_version_key m2)
            = (st.del1 (ConjSchemes.get_lookup_key T)).getInt
                (ConjSchemes.get_version_key m2) :=
              (Store.getInt_del1_ne st _ _ (Ne.symm (lookup_ne_vkey T m2 hop))).symm
          _ ≤ _ := Store.getInt_incr_ge _ _ _
  | invalidateDict T vs =>
    show ConjOK ((invalidate_from_dict idInterf cs st T vs).2).2 ∧
      ∀ m2 : String, st.getInt (ConjSchemes.get_version_key m2) ≤
        ((invalidate_from_dict idInterf cs st T vs).2).2.getInt
          (ConjSchemes.get_version_key m2)
    rw [invalidate_from_dict_eq idInterf cs st T vs (ConjSchemes.schemes cs st T).1
      (ConjSchemes.schemes cs st T).2 rfl]
    exact invalidate_loop_store T vs (ConjSchemes.get_version_key T) 3
      (ConjSchemes.schemes cs st T).2 (ConjSchemes.schemes cs st T).1 st hok
  | invalidateAll => exact hop.elim

/-- C7 counterexample: `invalidate_all` flushes the store, so the
store-side version read by any process drops back to 0; with version 5
stored, the observed version decreases across `invalidate_all`. -/
theorem version_monotone_counterexample :
    (step (ConjSchemes.init, ⟨[("schemes:Order:version", RVal.int 5)]⟩)
        Op.invalidateAll).2.getInt (ConjSchemes.get_version_key "Order") <
      Store.getInt ⟨[("schemes:Order:version", RVal.int 5)]⟩
        (ConjSchemes.get_version_key "Order") := by decide

/-- C7 (amended): across any sequence of operations excluding
`invalidate_all` — `ensure_known`, `load_schemes`, `schemes`, `clear`,
`invalidate_model`, `invalidate_from_dict` — with colon-free entity-type
names and a store whose conj-sets contain only cache keys, no entity
type's store-side version counter ever decreases; `invalidate_all`
(excluded) violates this by flushing the store. -/
theorem version_monotone (s : ConjSchemes × Store) (ops : List Op) (m : String)
    (hok : ConjOK s.2) (hops : ∀ op ∈ ops, OpOK op) :
    s.2.getInt (ConjSchemes.get_version_key m) ≤
      (ops.foldl step s).2.getInt (ConjSchemes.get_version_key m) := by
  induction ops generalizing s with
  | nil => exact le_refl _
  | cons op t ih =>
    obtain ⟨cs, st⟩ := s
    have h1 := step_store cs st op (hops op (List.mem_cons_self op t)) hok
    calc st.getInt (ConjSchemes.get_version_key m)
        ≤ (step (cs, st) op).2.getInt (ConjSchemes.get_version_key m) := h1.2 m
      _ ≤ _ := ih (step (cs, st) op) h1.1 (fun op2 h2 => hops op2 (List.mem_cons_of_mem op h2))

/-- C7 witness: a `clear` on a hygienic state takes the version from 0
to 1, not below 0. -/
theorem version_monotone_witness :
    Store.getInt ⟨[]⟩ (ConjSchemes.get_version_key "Order") ≤
      (List.foldl step (ConjSchemes.init, ⟨[]⟩)
        [Op.clearOp "Order"]).2.getInt (ConjSchemes.get_version_key "Order") :=
  version_monotone (ConjSchemes.init, ⟨[]⟩) [Op.clearOp "Order"] "Order"
    (ConjOK_of_forall _ (by decide))
    (fun op hop => by
      rw [List.mem_singleton] at hop
      subst hop
      exact (by decide : ':' ∉ "Order".data))

theorem LocalsWF.ensure_known (cs : ConjSchemes) (st : Store) (model : String)
    (S : Finset (List String)) (h : LocalsWF cs) :
    LocalsWF (ConjSchemes.ensure_known cs st model S).1 := by
  have hw : ∀ cs2 sch, [] ∈ sch →
      LocalsWF cs2 → LocalsWF (ConjSchemes.ensure_known_write cs2 st model sch S).1 := by
    intro cs2 sch hsch h2 m2 s hs
    rw [show (ConjSchemes.ensure_known_write cs2 st model sch S).1.locals m2 =
      ConjSchemes.updF cs2.locals model (sch ∪ S) m2 from rfl, ConjSchemes.updF] at hs
    split at hs
    · rw [Option.some.injEq] at hs
      subst hs
      exact Finset.mem_union_left S hsch
    · exact h2 m2 s hs
  rcases hcl : cs.locals model with _ | s
  · rw [ensure_known_none_eq cs st model S hcl]
    split
    · exact hw _ _ (empty_mem_load_schemes cs st model) (LocalsWF.load cs st model h)
    · exact LocalsWF.load cs st model h
  · rw [ensure_known_some_eq cs st model S s hcl]
    split
    · split
      · exact hw _ _ (empty_mem_load_schemes cs st model) (LocalsWF.load cs st model h)
      · exact LocalsWF.load cs st model h
    · exact h

theorem LocalsWF.clear_all (cs : ConjSchemes) :
    LocalsWF (ConjSchemes.clear_all cs) := by
  intro m s hs
  cases hs

theorem LocalsWF.init : LocalsWF ConjSchemes.init := by
  intro m s hs
  cases hs

end Cacheops
